import Mathlib

/-!
# BayesianCI: `advancedBayesianCausalInference`

A shallow embedding of `src/BayesianCI.cpp` and the properties of its
specification.

* `double` values are modelled by `Dbl`: the IEEE-754 special values (signed
  zero, the infinities, NaN) and finite values given by the rational they
  denote; the finite results of `+` and `/` are rounded to the nearest
  binary64 value, ties to even, with overflow to an infinity and underflow
  to a signed zero (`Dbl.roundNearest`).
* `int` values are mathematical integers; the one `int` subtraction of the
  program wraps modulo `2^32` (`wrapInt32`).
* The generator is a stream of variates and a read position.
* A `NumericMatrix` is a column-major vector with its two dimensions.
-/

set_option autoImplicit false

namespace BayesianCI

/-! ## `double` -/

/-- A `double`: a finite value (`fin 0` is `+0.0`), `-0.0`, `+∞`, `-∞` or NaN. -/
inductive Dbl where
  | fin (q : ℚ)
  | negZero
  | pinf
  | ninf
  | nan
  deriving DecidableEq

namespace Dbl

/-- The sign bit. -/
def isNeg : Dbl → Bool
  | fin q => decide (q < 0)
  | negZero => true
  | ninf => true
  | _ => false

/-- Is the value `+0.0` or `-0.0`. -/
def isZero : Dbl → Bool
  | fin q => decide (q = 0)
  | negZero => true
  | _ => false

/-- Is the value an infinity. -/
def isInf : Dbl → Bool
  | pinf => true
  | ninf => true
  | _ => false

/-- Is the value NaN. -/
def isNaN : Dbl → Bool
  | nan => true
  | _ => false

/-- The zero of the given sign. -/
def zeroOf (neg : Bool) : Dbl := if neg then negZero else fin 0

/-- The infinity of the given sign. -/
def infOf (neg : Bool) : Dbl := if neg then ninf else pinf

/-- Conversion `int → double` (exact for 32-bit integers). -/
def ofInt (k : Int) : Dbl := fin (k : ℚ)

/-- Rounding of a rational to the nearest integer, ties to the even one. -/
def roundHalfEven (x : ℚ) : Int :=
  if x - (⌊x⌋ : ℚ) < 1 / 2 then ⌊x⌋
  else if 1 / 2 < x - (⌊x⌋ : ℚ) then ⌊x⌋ + 1
  else if ⌊x⌋ % 2 = 0 then ⌊x⌋ else ⌊x⌋ + 1

/-- The binary exponent `e` of a positive value `a`, `2 ^ e ≤ a < 2 ^ (e + 1)`, not below
the exponent `-1022` of the subnormal numbers. -/
def binade (a : ℚ) : Int := max (Int.log 2 a) (-1022)

/-- Rounding of an exact result to binary64, to nearest with ties to even: the result is
a multiple of `2 ^ (e - 52)` for the binade `e` of the value; magnitudes from
`2 ^ 1024 - 2 ^ 970` on overflow to an infinity, and a result that rounds to nothing is a
zero with the sign of the value. -/
def roundNearest (q : ℚ) : Dbl :=
  if q = 0 then fin 0
  else if (2 : ℚ) ^ 1024 - 2 ^ 970 ≤ |q| then infOf (decide (q < 0))
  else
    let r : ℚ := (roundHalfEven (|q| / 2 ^ (binade |q| - 52)) : ℚ) * 2 ^ (binade |q| - 52)
    if r = 0 then zeroOf (decide (q < 0))
    else fin (if q < 0 then -r else r)

/-- IEEE-754 addition, round to nearest: adding a zero returns the other operand as it
is, any other finite sum is rounded. -/
def add : Dbl → Dbl → Dbl
  | nan, _ => nan
  | _, nan => nan
  | pinf, ninf => nan
  | ninf, pinf => nan
  | pinf, _ => pinf
  | _, pinf => pinf
  | ninf, _ => ninf
  | _, ninf => ninf
  | negZero, negZero => negZero
  | negZero, fin b => fin b
  | fin a, negZero => fin a
  | fin a, fin b =>
    if a = 0 then fin b else if b = 0 then fin a else roundNearest (a + b)

/-- IEEE-754 division, round to nearest: dividing by one returns the dividend as it is,
any other finite quotient is rounded. -/
def div (x y : Dbl) : Dbl :=
  if x.isNaN || y.isNaN then nan
  else if x.isInf then
    if y.isInf then nan else infOf (xor x.isNeg y.isNeg)
  else if y.isInf then zeroOf (xor x.isNeg y.isNeg)
  else if y.isZero then
    if x.isZero then nan else infOf (xor x.isNeg y.isNeg)
  else if x.isZero then zeroOf (xor x.isNeg y.isNeg)
  else
    match x, y with
    | fin a, fin b => if b = 1 then fin a else roundNearest (a / b)
    | _, _ => nan

/-- The comparison `x == y` of two doubles: NaN equals nothing, `-0.0 == +0.0`. -/
def eq (x y : Dbl) : Bool :=
  if x.isNaN || y.isNaN then false
  else if x.isZero && y.isZero then true
  else decide (x = y)

end Dbl

/-! ## `int` -/

/-- A value of the program's 32-bit `int` type. -/
def isInt32 (x : Int) : Prop := -2147483648 ≤ x ∧ x ≤ 2147483647

instance (x : Int) : Decidable (isInt32 x) := by
  unfold isInt32; infer_instance

/-- Two's-complement wrap-around of an integer to 32 bits. -/
def wrapInt32 (x : Int) : Int := (x + 2147483648) % 4294967296 - 2147483648

/-- The `int` expression `iterations - burnin` of the normalisation. -/
def denominator (iterations burnin : Int) : Int := wrapInt32 (iterations - burnin)

/-! ## Loops -/

/-- The loop `for (int i = 0; i < n; i++) body`, on a state. -/
def forLoop {σ : Type} (n : Nat) (body : Nat → σ → σ) (s : σ) : σ :=
  (List.range n).foldl (fun acc i => body i acc) s

/-! ## `NumericMatrix` -/

/-- An Rcpp `NumericMatrix`: dimensions and the column-major vector of cells. -/
structure NumericMatrix where
  nrow : Nat
  ncol : Nat
  data : List Dbl
  deriving DecidableEq

namespace NumericMatrix

/-- The constructor `NumericMatrix(r, c)`: an `r × c` matrix filled with `0.0`. -/
def zeros (r c : Nat) : NumericMatrix := ⟨r, c, List.replicate (r * c) (Dbl.fin 0)⟩

/-- Read access `M(i, j)`, at offset `i + nrow * j`. -/
def get (M : NumericMatrix) (i j : Nat) : Dbl := M.data.getD (i + M.nrow * j) (Dbl.fin 0)

/-- Write access `M(i, j) = v`. -/
def set (M : NumericMatrix) (i j : Nat) (v : Dbl) : NumericMatrix :=
  { M with data := M.data.set (i + M.nrow * j) v }

end NumericMatrix

/-! ## The generator -/

/-- The state of `normal_dist(generator)`: the variates it yields and how many were drawn. -/
structure Generator where
  draws : Nat → Dbl
  pos : Nat

/-- One call `normal_dist(generator)`: the next variate and the advanced generator. -/
def normal_dist (g : Generator) : Dbl × Generator :=
  (g.draws g.pos, { g with pos := g.pos + 1 })

/-! ## The program -/

/-- The variables of `advancedBayesianCausalInference` that outlive an iteration. -/
structure Store where
  data : NumericMatrix
  causal_matrix : NumericMatrix
  generator : Generator

/-- Lines 26-30: fill the causal matrix with zeros. -/
def initCausalMatrix (m : Nat) (cm : NumericMatrix) : NumericMatrix :=
  forLoop m (fun i cm =>
    forLoop m (fun j cm => cm.set i j (Dbl.ofInt 0)) cm) cm

/-- Lines 41-49: sample every off-diagonal cell of the scratch matrix, row by row. -/
def sampleEstimates (m : Nat) (s : NumericMatrix × Generator) : NumericMatrix × Generator :=
  forLoop m (fun i s =>
    forLoop m (fun j s =>
      if i ≠ j then
        let r := normal_dist s.2
        (s.1.set i j r.1, r.2)
      else s) s) s

/-- Lines 53-57: add the scratch matrix into the causal matrix. -/
def updateCausalMatrix (m : Nat) (current_estimates cm : NumericMatrix) : NumericMatrix :=
  forLoop m (fun i cm =>
    forLoop m (fun j cm =>
      cm.set i j (Dbl.add (cm.get i j) (current_estimates.get i j))) cm) cm

/-- Lines 38-58: the body of the sampling loop at iteration `iter`. -/
def mcmcIteration (m : Nat) (burnin : Int) (iter : Nat) (s : Store) : Store :=
  let r := sampleEstimates m (NumericMatrix.zeros m m, s.generator)
  let current_estimates := r.1
  let cm :=
    if (iter : Int) ≥ burnin then updateCausalMatrix m current_estimates s.causal_matrix
    else s.causal_matrix
  { s with causal_matrix := cm, generator := r.2 }

/-- Lines 22-59: the state when the sampling loop has finished, before normalisation. -/
def mcmcSampling (data : NumericMatrix) (generator : Generator) (iterations burnin : Int) :
    Store :=
  let m := data.ncol
  forLoop iterations.toNat (mcmcIteration m burnin)
    { data := data
      causal_matrix := initCausalMatrix m (NumericMatrix.zeros m m)
      generator := generator }

/-- Lines 62-66: divide every cell by `iterations - burnin`. -/
def normalize (m : Nat) (iterations burnin : Int) (cm : NumericMatrix) : NumericMatrix :=
  forLoop m (fun i cm =>
    forLoop m (fun j cm =>
      cm.set i j (Dbl.div (cm.get i j) (Dbl.ofInt (denominator iterations burnin)))) cm) cm

/-- The whole function: the final store, whose `causal_matrix` is the value returned. -/
def advancedBayesianCausalInference (data : NumericMatrix) (generator : Generator)
    (iterations burnin : Int) : Store :=
  let s := mcmcSampling data generator iterations burnin
  { s with causal_matrix := normalize data.ncol iterations burnin s.causal_matrix }

/-! ## Auxiliary definitions -/

/-- The matrix is `m × m` and its vector has `m * m` cells. -/
structure NumericMatrix.Square (m : Nat) (M : NumericMatrix) : Prop where
  nrow_eq : M.nrow = m
  ncol_eq : M.ncol = m
  length_eq : M.data.length = m * m

/-- The double loop that replaces every cell `(i, j)` by `f i j` of its value: the common
shape of the initialisation, accumulation and normalisation loops. -/
def mapCells (m : Nat) (f : Nat → Nat → Dbl → Dbl) (cm : NumericMatrix) : NumericMatrix :=
  forLoop m (fun i cm =>
    forLoop m (fun j cm => cm.set i j (f i j (cm.get i j))) cm) cm

/-- The number of off-diagonal cells of row `i` that precede column `j`. -/
def colOffset (i j : Nat) : Nat := if j < i then j else j - 1

/-- The body of the inner sampling loop, for row `i` and column `j`. -/
def sampleCell (i j : Nat) (s : NumericMatrix × Generator) : NumericMatrix × Generator :=
  if i ≠ j then
    let r := normal_dist s.2
    (s.1.set i j r.1, r.2)
  else s

/-- The value that iteration `t` samples for cell `(a, b)`: the variate drawn at its
row-major rank among the off-diagonal cells, or the scratch matrix's `0.0` on the diagonal. -/
def cellSample (g : Generator) (m t a b : Nat) : Dbl :=
  if a ≠ b then g.draws (g.pos + t * (m * (m - 1)) + a * (m - 1) + colOffset a b)
  else Dbl.fin 0

/-- The running total of cell `(a, b)` after `n` iterations. -/
def cellAcc (g : Generator) (m : Nat) (burnin : Int) (a b n : Nat) : Dbl :=
  forLoop n (fun t acc =>
    if (t : Int) ≥ burnin then Dbl.add acc (cellSample g m t a b) else acc) (Dbl.fin 0)

/-- The variate that iteration `t` samples for the off-diagonal cell `(i, j)` of a run on
`m` columns that reads the stream `q` from position `0`. -/
def cellDraw (q : Nat → ℚ) (m i j t : Nat) : ℚ :=
  q (t * m * (m - 1) + i * (m - 1) + (if j < i then j else j - 1))

/-- The sum in `double` arithmetic of the `k` values `x lo, …, x (lo + k - 1)`, added one
after the other to `+0.0`. -/
def sumFrom (x : Nat → Dbl) (lo : Nat) : Nat → Dbl
  | 0 => Dbl.fin 0
  | k + 1 => Dbl.add (sumFrom x lo k) (x (lo + k))

/-- None of the `k` additions of the running sum of `x lo, x (lo + 1), …` rounds: each
returns the exact sum. -/
def ExactSum (x : Nat → ℚ) (lo k : Nat) : Prop :=
  ∀ r, r < k →
    Dbl.add (Dbl.fin (∑ t in Finset.Ico lo (lo + r), x t)) (Dbl.fin (x (lo + r))) =
      Dbl.fin ((∑ t in Finset.Ico lo (lo + r), x t) + x (lo + r))

/-- No operation of the mean of `x lo, …, x (hi - 1)` rounds: neither the additions of the
running sum nor the division by `hi - lo`. -/
def ExactMean (x : Nat → ℚ) (lo hi : Nat) : Prop :=
  ExactSum x lo (hi - lo) ∧
  Dbl.div (Dbl.fin (∑ t in Finset.Ico lo hi, x t)) (Dbl.ofInt ((hi : Int) - (lo : Int))) =
    Dbl.fin ((∑ t in Finset.Ico lo hi, x t) / ((hi : ℚ) - (lo : ℚ)))

/-! ## Loop and matrix lemmas -/

theorem forLoop_zero {σ : Type} (body : Nat → σ → σ) (s : σ) : forLoop 0 body s = s := rfl

theorem forLoop_succ {σ : Type} (n : Nat) (body : Nat → σ → σ) (s : σ) :
    forLoop (n + 1) body s = body n (forLoop n body s) := by
  simp [forLoop, List.range_succ, List.foldl_append]

theorem offset_lt {m i j : Nat} (hi : i < m) (hj : j < m) : i + m * j < m * m := by
  have h1 : m * j + m ≤ m * m := by
    have : m * (j + 1) ≤ m * m := Nat.mul_le_mul_left m hj
    simpa [Nat.mul_succ] using this
  omega

theorem offset_inj {m a b i j : Nat} (ha : a < m) (hi : i < m)
    (h : a + m * b = i + m * j) : a = i ∧ b = j := by
  have hm : 0 < m := by omega
  have h1 : (a + m * b) % m = (i + m * j) % m := by rw [h]
  rw [Nat.add_mul_mod_self_left, Nat.add_mul_mod_self_left, Nat.mod_eq_of_lt ha,
    Nat.mod_eq_of_lt hi] at h1
  have h2 : (a + m * b) / m = (i + m * j) / m := by rw [h]
  rw [Nat.add_mul_div_left _ _ hm, Nat.add_mul_div_left _ _ hm, Nat.div_eq_of_lt ha,
    Nat.div_eq_of_lt hi] at h2
  exact ⟨h1, by omega⟩

theorem NumericMatrix.zeros_square (m : Nat) : (NumericMatrix.zeros m m).Square m :=
  ⟨rfl, rfl, by simp [NumericMatrix.zeros]⟩

theorem NumericMatrix.zeros_get (m i j : Nat) :
    (NumericMatrix.zeros m m).get i j = Dbl.fin 0 := by
  simp only [NumericMatrix.get, NumericMatrix.zeros, List.getD_eq_getElem?_getD,
    List.getElem?_replicate]
  split <;> rfl

theorem NumericMatrix.set_square {m : Nat} {M : NumericMatrix} (h : M.Square m)
    (i j : Nat) (v : Dbl) : (M.set i j v).Square m :=
  ⟨h.nrow_eq, h.ncol_eq, by simp [NumericMatrix.set, h.length_eq]⟩

theorem NumericMatrix.get_set {m : Nat} {M : NumericMatrix} (h : M.Square m)
    {a b i j : Nat} (ha : a < m) (hi : i < m) (hj : j < m) (v : Dbl) :
    (M.set i j v).get a b = if a = i ∧ b = j then v else M.get a b := by
  have hlt : i + m * j < M.data.length := by rw [h.length_eq]; exact offset_lt hi hj
  simp only [NumericMatrix.get, NumericMatrix.set, List.getD_eq_getElem?_getD,
    List.getElem?_set, h.nrow_eq]
  by_cases hab : a = i ∧ b = j
  · obtain ⟨rfl, rfl⟩ := hab
    simp [hlt]
  · have hne : i + m * j ≠ a + m * b := by
      intro e
      exact hab (offset_inj ha hi e.symm)
    simp [hne, hab]

/-- Two square matrices with the same cells are the same matrix. -/
theorem NumericMatrix.ext_get {m : Nat} {M N : NumericMatrix} (hM : M.Square m)
    (hN : N.Square m) (h : ∀ i j, i < m → j < m → M.get i j = N.get i j) : M = N := by
  obtain ⟨r1, c1, d1⟩ := M
  obtain ⟨r2, c2, d2⟩ := N
  have hr1 : m = r1 := hM.nrow_eq.symm
  have hc1 : m = c1 := hM.ncol_eq.symm
  have hl1 : d1.length = m * m := hM.length_eq
  have hr2 : m = r2 := hN.nrow_eq.symm
  have hc2 : m = c2 := hN.ncol_eq.symm
  have hl2 : d2.length = m * m := hN.length_eq
  subst hr1
  subst hc1
  subst hr2
  subst hc2
  congr 1
  apply List.ext_getElem (by rw [hl1, hl2])
  intro n h1 h2
  have hn : n < m * m := by rw [← hl1]; exact h1
  have hm : 0 < m := by
    rcases Nat.eq_zero_or_pos m with h0 | h0
    · subst h0; simp at hn
    · exact h0
  have hi : n % m < m := Nat.mod_lt _ hm
  have hj : n / m < m := Nat.div_lt_of_lt_mul hn
  have e := h (n % m) (n / m) hi hj
  simp only [NumericMatrix.get, Nat.mod_add_div] at e
  rw [List.getD_eq_getElem _ _ h1, List.getD_eq_getElem _ _ h2] at e
  exact e

/-! ## The double loop over the cells -/

theorem initCausalMatrix_eq (m : Nat) (cm : NumericMatrix) :
    initCausalMatrix m cm = mapCells m (fun _ _ _ => Dbl.ofInt 0) cm := rfl

theorem updateCausalMatrix_eq (m : Nat) (cur cm : NumericMatrix) :
    updateCausalMatrix m cur cm = mapCells m (fun i j x => Dbl.add x (cur.get i j)) cm := rfl

theorem normalize_eq (m : Nat) (iterations burnin : Int) (cm : NumericMatrix) :
    normalize m iterations burnin cm =
      mapCells m (fun _ _ x => Dbl.div x (Dbl.ofInt (denominator iterations burnin))) cm := rfl

theorem mapCells_row {m : Nat} (f : Nat → Nat → Dbl → Dbl) {M : NumericMatrix}
    (hM : M.Square m) {i : Nat} (hi : i < m) (n : Nat) (hn : n ≤ m) :
    (forLoop n (fun j cm => cm.set i j (f i j (cm.get i j))) M).Square m ∧
    ∀ a b, a < m → b < m →
      (forLoop n (fun j cm => cm.set i j (f i j (cm.get i j))) M).get a b =
        if a = i ∧ b < n then f i b (M.get a b) else M.get a b := by
  induction n with
  | zero => exact ⟨hM, fun a b _ _ => by simp [forLoop_zero]⟩
  | succ k ih =>
    obtain ⟨hS, hG⟩ := ih (by omega)
    rw [forLoop_succ]
    refine ⟨NumericMatrix.set_square hS _ _ _, fun a b ha hb => ?_⟩
    rw [NumericMatrix.get_set hS ha hi (by omega), hG i k hi (by omega), hG a b ha hb]
    by_cases h1 : a = i
    · subst h1
      by_cases h2 : b = k
      · subst h2; simp
      · have h3 : b < k + 1 ↔ b < k := by omega
        simp [h2, h3]
    · simp [h1]

theorem mapCells_rows {m : Nat} (f : Nat → Nat → Dbl → Dbl) {M : NumericMatrix}
    (hM : M.Square m) (n : Nat) (hn : n ≤ m) :
    (forLoop n (fun i cm =>
        forLoop m (fun j cm => cm.set i j (f i j (cm.get i j))) cm) M).Square m ∧
    ∀ a b, a < m → b < m →
      (forLoop n (fun i cm =>
        forLoop m (fun j cm => cm.set i j (f i j (cm.get i j))) cm) M).get a b =
        if a < n then f a b (M.get a b) else M.get a b := by
  induction n with
  | zero => exact ⟨hM, fun a b _ _ => by simp [forLoop_zero]⟩
  | succ k ih =>
    obtain ⟨hS, hG⟩ := ih (by omega)
    rw [forLoop_succ]
    obtain ⟨hS2, hG2⟩ := mapCells_row f hS (show k < m by omega) m (le_refl m)
    refine ⟨hS2, fun a b ha hb => ?_⟩
    rw [hG2 a b ha hb, hG a b ha hb]
    by_cases h1 : a = k
    · subst h1; simp [hb]
    · have h3 : a < k + 1 ↔ a < k := by omega
      simp [h1, h3]

theorem mapCells_square {m : Nat} (f : Nat → Nat → Dbl → Dbl) {M : NumericMatrix}
    (hM : M.Square m) : (mapCells m f M).Square m :=
  (mapCells_rows f hM m (le_refl m)).1

theorem mapCells_get {m : Nat} (f : Nat → Nat → Dbl → Dbl) {M : NumericMatrix}
    (hM : M.Square m) {a b : Nat} (ha : a < m) (hb : b < m) :
    (mapCells m f M).get a b = f a b (M.get a b) := by
  have h := (mapCells_rows f hM m (le_refl m)).2 a b ha hb
  simpa [ha, mapCells] using h

/-! ## The sampling loop -/

theorem sampleEstimates_eq (m : Nat) (s : NumericMatrix × Generator) :
    sampleEstimates m s = forLoop m (fun i s => forLoop m (fun j s => sampleCell i j s) s) s :=
  rfl

theorem sample_row {m : Nat} {M : NumericMatrix} (hM : M.Square m) (g : Generator)
    {i : Nat} (hi : i < m) (n : Nat) (hn : n ≤ m) :
    (forLoop n (fun j s => sampleCell i j s) (M, g)).1.Square m ∧
    (forLoop n (fun j s => sampleCell i j s) (M, g)).2.draws = g.draws ∧
    (forLoop n (fun j s => sampleCell i j s) (M, g)).2.pos =
      g.pos + (if i < n then n - 1 else n) ∧
    ∀ a b, a < m → b < m →
      (forLoop n (fun j s => sampleCell i j s) (M, g)).1.get a b =
        if a = i ∧ b < n ∧ b ≠ i then g.draws (g.pos + colOffset i b) else M.get a b := by
  induction n with
  | zero => exact ⟨hM, rfl, by simp [forLoop_zero], fun a b _ _ => by simp [forLoop_zero]⟩
  | succ k ih =>
    obtain ⟨hS, hD, hP, hG⟩ := ih (by omega)
    rw [forLoop_succ]
    by_cases hik : i = k
    · subst hik
      have hc : sampleCell i i (forLoop i (fun j s => sampleCell i j s) (M, g)) =
          forLoop i (fun j s => sampleCell i j s) (M, g) := by simp [sampleCell]
      rw [hc]
      refine ⟨hS, hD, ?_, fun a b ha hb => ?_⟩
      · rw [hP]; simp
      · rw [hG a b ha hb]
        by_cases h1 : b = i
        · simp [h1]
        · have h3 : b < i + 1 ↔ b < i := by omega
          simp [h3]
    · have hc : sampleCell i k (forLoop k (fun j s => sampleCell i j s) (M, g)) =
          ((forLoop k (fun j s => sampleCell i j s) (M, g)).1.set i k
              ((forLoop k (fun j s => sampleCell i j s) (M, g)).2.draws
                (forLoop k (fun j s => sampleCell i j s) (M, g)).2.pos),
            { (forLoop k (fun j s => sampleCell i j s) (M, g)).2 with
              pos := (forLoop k (fun j s => sampleCell i j s) (M, g)).2.pos + 1 }) := by
        simp [sampleCell, normal_dist, hik]
      rw [hc]
      refine ⟨NumericMatrix.set_square hS _ _ _, hD, ?_, fun a b ha hb => ?_⟩
      · show (forLoop k (fun j s => sampleCell i j s) (M, g)).2.pos + 1 = _
        rw [hP]
        split_ifs <;> omega
      · show ((forLoop k (fun j s => sampleCell i j s) (M, g)).1.set i k _).get a b = _
        rw [NumericMatrix.get_set hS ha hi (by omega), hG a b ha hb, hD, hP]
        by_cases h1 : a = i ∧ b = k
        · obtain ⟨rfl, rfl⟩ := h1
          have e : (if a < b then b - 1 else b) = colOffset a b := by
            unfold colOffset; split_ifs <;> omega
          simp [hik, e, Ne.symm hik]
        · rw [if_neg h1]
          by_cases h2 : a = i
          · subst h2
            have h4 : b ≠ k := fun e => h1 ⟨rfl, e⟩
            have h3 : b < k + 1 ↔ b < k := by omega
            simp [h3]
          · simp [h2]

theorem sample_rows {m : Nat} {M : NumericMatrix} (hM : M.Square m) (g : Generator)
    (n : Nat) (hn : n ≤ m) :
    (forLoop n (fun i s => forLoop m (fun j s => sampleCell i j s) s) (M, g)).1.Square m ∧
    (forLoop n (fun i s => forLoop m (fun j s => sampleCell i j s) s) (M, g)).2.draws
      = g.draws ∧
    (forLoop n (fun i s => forLoop m (fun j s => sampleCell i j s) s) (M, g)).2.pos =
      g.pos + n * (m - 1) ∧
    ∀ a b, a < m → b < m →
      (forLoop n (fun i s => forLoop m (fun j s => sampleCell i j s) s) (M, g)).1.get a b =
        if a < n ∧ a ≠ b then g.draws (g.pos + a * (m - 1) + colOffset a b)
        else M.get a b := by
  induction n with
  | zero => exact ⟨hM, rfl, by simp [forLoop_zero], fun a b _ _ => by simp [forLoop_zero]⟩
  | succ k ih =>
    obtain ⟨hS, hD, hP, hG⟩ := ih (by omega)
    rw [forLoop_succ]
    generalize forLoop k (fun i s => forLoop m (fun j s => sampleCell i j s) s) (M, g) = R
      at hS hD hP hG
    obtain ⟨R1, R2⟩ := R
    obtain ⟨hS2, hD2, hP2, hG2⟩ := sample_row hS R2 (show k < m by omega) m (le_refl m)
    refine ⟨hS2, by rw [hD2]; exact hD, ?_, fun a b ha hb => ?_⟩
    · rw [hP2]
      simp only at hP
      rw [hP, if_pos (show k < m by omega), Nat.succ_mul]
      omega
    · rw [hG2 a b ha hb]
      simp only at hP hD hG
      rw [hG a b ha hb, hD, hP]
      by_cases h1 : a = k
      · subst h1
        by_cases h2 : b = a
        · subst h2; simp
        · have h5 : a ≠ b := fun e => h2 e.symm
          simp [hb, h2, h5]
      · have h3 : a < k + 1 ↔ a < k := by omega
        simp [h1, h3]

theorem sampleEstimates_spec (m : Nat) (g : Generator) :
    (sampleEstimates m (NumericMatrix.zeros m m, g)).1.Square m ∧
    (sampleEstimates m (NumericMatrix.zeros m m, g)).2.draws = g.draws ∧
    (sampleEstimates m (NumericMatrix.zeros m m, g)).2.pos = g.pos + m * (m - 1) ∧
    ∀ a b, a < m → b < m →
      (sampleEstimates m (NumericMatrix.zeros m m, g)).1.get a b =
        if a ≠ b then g.draws (g.pos + a * (m - 1) + colOffset a b) else Dbl.fin 0 := by
  obtain ⟨h1, h2, h3, h4⟩ := sample_rows (NumericMatrix.zeros_square m) g m (le_refl m)
  rw [sampleEstimates_eq]
  refine ⟨h1, h2, h3, fun a b ha hb => ?_⟩
  rw [h4 a b ha hb, NumericMatrix.zeros_get]
  simp [ha]

/-! ## The iteration loop -/

theorem mcmcIteration_spec (m : Nat) (burnin : Int) (iter : Nat) (s : Store)
    (hS : s.causal_matrix.Square m) :
    (mcmcIteration m burnin iter s).data = s.data ∧
    (mcmcIteration m burnin iter s).generator.draws = s.generator.draws ∧
    (mcmcIteration m burnin iter s).generator.pos = s.generator.pos + m * (m - 1) ∧
    (mcmcIteration m burnin iter s).causal_matrix.Square m ∧
    ∀ a b, a < m → b < m →
      (mcmcIteration m burnin iter s).causal_matrix.get a b =
        if (iter : Int) ≥ burnin then
          Dbl.add (s.causal_matrix.get a b)
            (if a ≠ b then s.generator.draws (s.generator.pos + a * (m - 1) + colOffset a b)
             else Dbl.fin 0)
        else s.causal_matrix.get a b := by
  obtain ⟨h1, h2, h3, h4⟩ := sampleEstimates_spec m s.generator
  refine ⟨rfl, h2, h3, ?_, fun a b ha hb => ?_⟩
  · show (if (iter : Int) ≥ burnin then _ else _ : NumericMatrix).Square m
    split_ifs
    · rw [updateCausalMatrix_eq]; exact mapCells_square _ hS
    · exact hS
  · show (if (iter : Int) ≥ burnin then _ else _ : NumericMatrix).get a b = _
    split_ifs with hb1 hb2
    · rw [updateCausalMatrix_eq, mapCells_get _ hS ha hb, h4 a b ha hb, if_pos hb2]
    · rw [updateCausalMatrix_eq, mapCells_get _ hS ha hb, h4 a b ha hb, if_neg hb2]
    · rfl

theorem initCausalMatrix_square (m : Nat) :
    (initCausalMatrix m (NumericMatrix.zeros m m)).Square m := by
  rw [initCausalMatrix_eq]; exact mapCells_square _ (NumericMatrix.zeros_square m)

theorem initCausalMatrix_get (m : Nat) {a b : Nat} (ha : a < m) (hb : b < m) :
    (initCausalMatrix m (NumericMatrix.zeros m m)).get a b = Dbl.fin 0 := by
  rw [initCausalMatrix_eq, mapCells_get _ (NumericMatrix.zeros_square m) ha hb]
  simp [Dbl.ofInt]

/-- The state after `n` iterations of the sampling loop. -/
theorem mcmcLoop_spec (data : NumericMatrix) (g : Generator) (burnin : Int) (n : Nat) :
    (forLoop n (mcmcIteration data.ncol burnin)
      { data := data
        causal_matrix := initCausalMatrix data.ncol (NumericMatrix.zeros data.ncol data.ncol)
        generator := g }).data = data ∧
    (forLoop n (mcmcIteration data.ncol burnin)
      { data := data
        causal_matrix := initCausalMatrix data.ncol (NumericMatrix.zeros data.ncol data.ncol)
        generator := g }).generator.draws = g.draws ∧
    (forLoop n (mcmcIteration data.ncol burnin)
      { data := data
        causal_matrix := initCausalMatrix data.ncol (NumericMatrix.zeros data.ncol data.ncol)
        generator := g }).generator.pos = g.pos + n * (data.ncol * (data.ncol - 1)) ∧
    (forLoop n (mcmcIteration data.ncol burnin)
      { data := data
        causal_matrix := initCausalMatrix data.ncol (NumericMatrix.zeros data.ncol data.ncol)
        generator := g }).causal_matrix.Square data.ncol ∧
    ∀ a b, a < data.ncol → b < data.ncol →
      (forLoop n (mcmcIteration data.ncol burnin)
        { data := data
          causal_matrix := initCausalMatrix data.ncol (NumericMatrix.zeros data.ncol data.ncol)
          generator := g }).causal_matrix.get a b = cellAcc g data.ncol burnin a b n := by
  induction n with
  | zero =>
    refine ⟨rfl, rfl, by simp [forLoop_zero], initCausalMatrix_square _, fun a b ha hb => ?_⟩
    simp only [forLoop_zero, cellAcc]
    exact initCausalMatrix_get _ ha hb
  | succ k ih =>
    obtain ⟨hA, hD, hP, hS, hG⟩ := ih
    rw [forLoop_succ]
    obtain ⟨iA, iD, iP, iS, iG⟩ := mcmcIteration_spec data.ncol burnin k _ hS
    refine ⟨iA.trans hA, iD.trans hD, ?_, iS, fun a b ha hb => ?_⟩
    · rw [iP, hP, Nat.succ_mul]; omega
    · rw [iG a b ha hb, hG a b ha hb, hD, hP]
      simp only [cellAcc, forLoop_succ, cellSample]

/-- The state before normalisation, cell by cell. -/
theorem mcmcSampling_spec (data : NumericMatrix) (g : Generator) (iterations burnin : Int) :
    (mcmcSampling data g iterations burnin).data = data ∧
    (mcmcSampling data g iterations burnin).generator.draws = g.draws ∧
    (mcmcSampling data g iterations burnin).generator.pos =
      g.pos + iterations.toNat * (data.ncol * (data.ncol - 1)) ∧
    (mcmcSampling data g iterations burnin).causal_matrix.Square data.ncol ∧
    ∀ a b, a < data.ncol → b < data.ncol →
      (mcmcSampling data g iterations burnin).causal_matrix.get a b =
        cellAcc g data.ncol burnin a b iterations.toNat :=
  mcmcLoop_spec data g burnin iterations.toNat

/-- The returned matrix, cell by cell. -/
theorem advancedBayesianCausalInference_spec (data : NumericMatrix) (g : Generator)
    (iterations burnin : Int) :
    (advancedBayesianCausalInference data g iterations burnin).data = data ∧
    (advancedBayesianCausalInference data g iterations burnin).generator.pos =
      g.pos + iterations.toNat * (data.ncol * (data.ncol - 1)) ∧
    (advancedBayesianCausalInference data g iterations burnin).causal_matrix.Square
      data.ncol ∧
    ∀ a b, a < data.ncol → b < data.ncol →
      (advancedBayesianCausalInference data g iterations burnin).causal_matrix.get a b =
        Dbl.div (cellAcc g data.ncol burnin a b iterations.toNat)
          (Dbl.ofInt (denominator iterations burnin)) := by
  obtain ⟨hA, _, hP, hS, hG⟩ := mcmcSampling_spec data g iterations burnin
  refine ⟨hA, hP, ?_, fun a b ha hb => ?_⟩
  · show (normalize _ _ _ _).Square _
    rw [normalize_eq]; exact mapCells_square _ hS
  · show (normalize _ _ _ _).get a b = _
    rw [normalize_eq, mapCells_get _ hS ha hb, hG a b ha hb]

/-! ## Arithmetic of the cells -/

theorem Dbl.add_zero_left (b : ℚ) : Dbl.add (Dbl.fin 0) (Dbl.fin b) = Dbl.fin b := by
  simp [Dbl.add]

theorem Dbl.div_one (a : ℚ) : Dbl.div (Dbl.fin a) (Dbl.ofInt 1) = Dbl.fin a := by
  by_cases ha : a = 0
  · subst ha
    simp [Dbl.div, Dbl.ofInt, Dbl.isNaN, Dbl.isInf, Dbl.isZero, Dbl.isNeg, Dbl.zeroOf]
  · simp [Dbl.div, Dbl.ofInt, Dbl.isNaN, Dbl.isInf, Dbl.isZero, ha]

theorem Dbl.div_zero_zero : Dbl.div (Dbl.fin 0) (Dbl.ofInt 0) = Dbl.nan := by
  simp [Dbl.div, Dbl.ofInt, Dbl.isNaN, Dbl.isInf, Dbl.isZero]

theorem Dbl.div_zero_nonzero (k : Int) (hk : k ≠ 0) :
    Dbl.div (Dbl.fin 0) (Dbl.ofInt k) = Dbl.zeroOf (decide (k < 0)) := by
  have hne : (k : ℚ) ≠ 0 := by exact_mod_cast hk
  simp [Dbl.div, Dbl.ofInt, Dbl.isNaN, Dbl.isInf, Dbl.isZero, Dbl.isNeg, hne]

theorem Dbl.div_zero_pos (k : Int) (hk : 0 < k) :
    Dbl.div (Dbl.fin 0) (Dbl.ofInt k) = Dbl.fin 0 := by
  rw [Dbl.div_zero_nonzero k (by omega)]
  simp [Dbl.zeroOf, not_lt.mpr (le_of_lt hk)]

theorem Dbl.eq_zeroOf (s : Bool) : Dbl.eq (Dbl.zeroOf s) (Dbl.fin 0) = true := by
  cases s <;> simp [Dbl.eq, Dbl.zeroOf, Dbl.isNaN, Dbl.isZero]

/-- On the diagonal the running total stays `0.0`. -/
theorem cellAcc_diag (g : Generator) (m : Nat) (burnin : Int) (a n : Nat) :
    cellAcc g m burnin a a n = Dbl.fin 0 := by
  induction n with
  | zero => rfl
  | succ k ih =>
    unfold cellAcc at ih ⊢
    rw [forLoop_succ, ih]
    split_ifs
    · simp [cellSample, Dbl.add]
    · rfl

/-- While no iteration has reached `burnin` the running total stays `0.0`. -/
theorem cellAcc_before_burnin (g : Generator) (m : Nat) (burnin : Int) (a b n : Nat)
    (h : (n : Int) ≤ burnin) : cellAcc g m burnin a b n = Dbl.fin 0 := by
  induction n with
  | zero => rfl
  | succ k ih =>
    have hk : (k : Int) ≤ burnin := by push_cast at h; omega
    have ih2 := ih hk
    unfold cellAcc at ih2 ⊢
    rw [forLoop_succ, ih2]
    have hlt : ¬ ((k : Int) ≥ burnin) := by push_cast at h; omega
    rw [if_neg hlt]

/-- When `iterations ≤ burnin` no iteration accumulates. -/
theorem cellAcc_never (g : Generator) (m : Nat) (iterations burnin : Int) (a b : Nat)
    (h : iterations ≤ burnin) : cellAcc g m burnin a b iterations.toNat = Dbl.fin 0 := by
  rcases le_or_lt 0 iterations with h0 | h0
  · exact cellAcc_before_burnin g m burnin a b _ (by rw [Int.toNat_of_nonneg h0]; exact h)
  · rw [Int.toNat_of_nonpos (le_of_lt h0)]; rfl

theorem wrapInt32_of_isInt32 (x : Int) (h : isInt32 x) : wrapInt32 x = x := by
  unfold isInt32 at h
  unfold wrapInt32
  omega

/-! ## Rounding at given values -/

theorem Dbl.binade_eq (a : ℚ) (e : Int) (ha : 0 < a) (he : -1022 ≤ e) (h1 : (2 : ℚ) ^ e ≤ a)
    (h2 : a < (2 : ℚ) ^ (e + 1)) : Dbl.binade a = e := by
  have hl : Int.log 2 a = e := by
    apply le_antisymm
    · have h := (Int.lt_zpow_iff_log_lt (by norm_num : 1 < 2) ha).mp
        (show a < ((2 : Nat) : ℚ) ^ (e + 1) by exact_mod_cast h2)
      omega
    · exact (Int.zpow_le_iff_le_log (by norm_num : 1 < 2) ha).mp
        (show ((2 : Nat) : ℚ) ^ e ≤ a by exact_mod_cast h1)
  unfold Dbl.binade
  rw [hl]
  exact max_eq_left he

theorem Dbl.roundHalfEven_down (x : ℚ) (f : Int) (h1 : (f : ℚ) ≤ x) (h2 : x - (f : ℚ) < 1 / 2) :
    Dbl.roundHalfEven x = f := by
  have hf : ⌊x⌋ = f := Int.floor_eq_iff.mpr ⟨h1, by linarith⟩
  unfold Dbl.roundHalfEven
  rw [hf, if_pos h2]

/-- The rounding of a positive value below the overflow threshold, from its binade `e` and
the integer `n` nearest to its quotient by `2 ^ (e - 52)`. -/
theorem Dbl.roundNearest_of_binade (q : ℚ) (e n : Int) (hq : 0 < q) (he : -1022 ≤ e)
    (h1 : (2 : ℚ) ^ e ≤ q) (h2 : q < (2 : ℚ) ^ (e + 1))
    (hov : q < (2 : ℚ) ^ 1024 - 2 ^ 970)
    (hn : Dbl.roundHalfEven (q / 2 ^ (e - 52)) = n) (hn0 : n ≠ 0) :
    Dbl.roundNearest q = Dbl.fin ((n : ℚ) * 2 ^ (e - 52)) := by
  have habs : |q| = q := abs_of_pos hq
  have hne : (n : ℚ) * 2 ^ (e - 52) ≠ 0 :=
    mul_ne_zero (by exact_mod_cast hn0) (zpow_ne_zero _ (by norm_num))
  unfold Dbl.roundNearest
  rw [if_neg (ne_of_gt hq), habs, if_neg (not_le.mpr hov), Dbl.binade_eq q e hq he h1 h2]
  simp only [hn]
  rw [if_neg hne, if_neg (not_lt.mpr (le_of_lt hq))]

/-- A positive value that is `n * 2 ^ (e - 52)` in its binade `e` is a `double`: rounding
returns it. -/
theorem Dbl.roundNearest_exact (q : ℚ) (e n : Int) (hq : 0 < q) (he : -1022 ≤ e)
    (h1 : (2 : ℚ) ^ e ≤ q) (h2 : q < (2 : ℚ) ^ (e + 1))
    (hov : q < (2 : ℚ) ^ 1024 - 2 ^ 970) (hn : q = (n : ℚ) * 2 ^ (e - 52)) :
    Dbl.roundNearest q = Dbl.fin q := by
  have hpow : (2 : ℚ) ^ (e - 52) ≠ 0 := zpow_ne_zero _ (by norm_num)
  have hx : q / 2 ^ (e - 52) = (n : ℚ) := by rw [hn]; field_simp
  have hn0 : n ≠ 0 := by
    rintro rfl
    rw [hn] at hq
    simp at hq
  have h := Dbl.roundNearest_of_binade q e n hq he h1 h2 hov
    (by rw [hx]; exact Dbl.roundHalfEven_down _ n (le_refl _) (by norm_num)) hn0
  rw [h, ← hn]

theorem Dbl.roundNearest_one_third :
    Dbl.roundNearest (1 / 3) = Dbl.fin (6004799503160661 / 18014398509481984) := by
  have h := Dbl.roundNearest_of_binade (1 / 3) (-2) 6004799503160661 (by norm_num)
    (by norm_num) (by norm_num) (by norm_num) (by norm_num)
    (Dbl.roundHalfEven_down _ _ (by norm_num) (by norm_num)) (by norm_num)
  rw [h]
  norm_num

theorem Dbl.roundNearest_four : Dbl.roundNearest 4 = Dbl.fin 4 :=
  Dbl.roundNearest_exact 4 2 4503599627370496 (by norm_num) (by norm_num) (by norm_num)
    (by norm_num) (by norm_num) (by norm_num)

theorem Dbl.roundNearest_eight : Dbl.roundNearest 8 = Dbl.fin 8 :=
  Dbl.roundNearest_exact 8 3 4503599627370496 (by norm_num) (by norm_num) (by norm_num)
    (by norm_num) (by norm_num) (by norm_num)

theorem cellSample_finite (q : Nat → ℚ) (m t : Nat) {i j : Nat} (hij : i ≠ j) :
    cellSample ⟨fun k => Dbl.fin (q k), 0⟩ m t i j = Dbl.fin (cellDraw q m i j t) := by
  simp [cellSample, cellDraw, colOffset, hij, Nat.mul_assoc]

/-- The running total after `n` iterations is the `double` sum of the samples of the
iterations from `burnin` on. -/
theorem cellAcc_eq_sumFrom (g : Generator) (m : Nat) (burnin : Int) (a b n : Nat) :
    cellAcc g m burnin a b n =
      sumFrom (fun t => cellSample g m t a b) burnin.toNat (n - burnin.toNat) := by
  induction n with
  | zero => simp [cellAcc, forLoop_zero, sumFrom]
  | succ k ih =>
    unfold cellAcc at ih ⊢
    rw [forLoop_succ, ih]
    by_cases hk : (k : Int) ≥ burnin
    · have hle : burnin.toNat ≤ k := by omega
      have e1 : k + 1 - burnin.toNat = (k - burnin.toNat) + 1 := by omega
      have e2 : burnin.toNat + (k - burnin.toNat) = k := by omega
      rw [if_pos hk, e1]
      simp only [sumFrom, e2]
    · have e1 : k + 1 - burnin.toNat = 0 := by omega
      have e2 : k - burnin.toNat = 0 := by omega
      rw [if_neg hk, e1, e2]

/-- When no addition rounds, the `double` sum is the exact sum. -/
theorem sumFrom_exact (x : Nat → ℚ) (lo k : Nat) (h : ExactSum x lo k) :
    sumFrom (fun t => Dbl.fin (x t)) lo k = Dbl.fin (∑ t in Finset.Ico lo (lo + k), x t) := by
  induction k with
  | zero => simp [sumFrom]
  | succ r ih =>
    have ih2 := ih (fun s hs => h s (by omega))
    simp only [sumFrom]
    rw [ih2, h r (by omega), ← Nat.add_assoc, Finset.sum_Ico_succ_top (Nat.le_add_right lo r)]

/-- Every off-diagonal cell, before and after normalisation, in `double` arithmetic. -/
theorem cell_offdiag_sum (data : NumericMatrix) (q : Nat → ℚ) (iterations burnin : Int)
    (i j : Nat) (hi : i < data.ncol) (hj : j < data.ncol) (hij : i ≠ j) :
    (mcmcSampling data ⟨fun k => Dbl.fin (q k), 0⟩ iterations burnin).causal_matrix.get i j =
      sumFrom (fun t => Dbl.fin (cellDraw q data.ncol i j t)) burnin.toNat
        (iterations.toNat - burnin.toNat) ∧
    (advancedBayesianCausalInference data ⟨fun k => Dbl.fin (q k), 0⟩
        iterations burnin).causal_matrix.get i j =
      Dbl.div (sumFrom (fun t => Dbl.fin (cellDraw q data.ncol i j t)) burnin.toNat
          (iterations.toNat - burnin.toNat))
        (Dbl.ofInt (denominator iterations burnin)) := by
  obtain ⟨_, _, _, _, hP⟩ :=
    mcmcSampling_spec data ⟨fun k => Dbl.fin (q k), 0⟩ iterations burnin
  obtain ⟨_, _, _, hG⟩ :=
    advancedBayesianCausalInference_spec data ⟨fun k => Dbl.fin (q k), 0⟩ iterations burnin
  have hacc : cellAcc ⟨fun k => Dbl.fin (q k), 0⟩ data.ncol burnin i j iterations.toNat =
      sumFrom (fun t => Dbl.fin (cellDraw q data.ncol i j t)) burnin.toNat
        (iterations.toNat - burnin.toNat) := by
    rw [cellAcc_eq_sumFrom]
    congr 1
    funext t
    exact cellSample_finite q data.ncol t hij
  exact ⟨by rw [hP i j hi hj, hacc], by rw [hG i j hi hj, hacc]⟩

/-- With `burnin = b < n = iterations` and no rounding in the mean, an off-diagonal cell
of the returned matrix is the exact mean of its samples of iterations `b, …, n - 1`. -/
theorem cell_offdiag_exact (data : NumericMatrix) (q : Nat → ℚ) (n b : Nat) (hlt : b < n)
    (hmax : (n : Int) ≤ 2147483647) (i j : Nat) (hi : i < data.ncol) (hj : j < data.ncol)
    (hij : i ≠ j) (hex : ExactMean (cellDraw q data.ncol i j) b n) :
    (advancedBayesianCausalInference data ⟨fun k => Dbl.fin (q k), 0⟩
        (n : Int) (b : Int)).causal_matrix.get i j =
      Dbl.fin ((∑ t in Finset.Ico b n, cellDraw q data.ncol i j t) / ((n : ℚ) - (b : ℚ))) := by
  have hden : denominator (n : Int) (b : Int) = (n : Int) - (b : Int) :=
    wrapInt32_of_isInt32 _ (by unfold isInt32; omega)
  have hsum := sumFrom_exact (cellDraw q data.ncol i j) b (n - b) hex.1
  rw [Nat.add_sub_cancel' (le_of_lt hlt)] at hsum
  rw [(cell_offdiag_sum data q n b i j hi hj hij).2, hden, Int.toNat_natCast,
    Int.toNat_natCast, hsum]
  exact hex.2

theorem Dbl.div_fin (a : ℚ) (k : Int) (ha : a ≠ 0) (hk : k ≠ 0) (hk1 : k ≠ 1) :
    Dbl.div (Dbl.fin a) (Dbl.ofInt k) = Dbl.roundNearest (a / (k : ℚ)) := by
  have h0 : (k : ℚ) ≠ 0 := by exact_mod_cast hk
  have h1 : (k : ℚ) ≠ 1 := by exact_mod_cast hk1
  simp [Dbl.div, Dbl.ofInt, Dbl.isNaN, Dbl.isInf, Dbl.isZero, ha, h0, h1]

/-- The run on two columns with `iterations = 3`, `burnin = 0` and the variates
`1, 0, 0, …`: cell `(0, 1)` is the `double` nearest to `1 / 3`. -/
theorem impulse_three_iterations :
    (advancedBayesianCausalInference ⟨1, 2, []⟩
        ⟨fun k => Dbl.fin (if k = 0 then 1 else 0), 0⟩ 3 0).causal_matrix.get 0 1 =
      Dbl.fin (6004799503160661 / 18014398509481984) := by
  have h := (cell_offdiag_sum ⟨1, 2, []⟩ (fun k => if k = 0 then 1 else 0) 3 0 0 1
    (by decide) (by decide) (by decide)).2
  have hden : denominator 3 0 = 3 := by decide
  have hs : sumFrom (fun t => Dbl.fin (cellDraw (fun k => if k = 0 then 1 else 0) 2 0 1 t))
      (0 : Int).toNat ((3 : Int).toNat - (0 : Int).toNat) = Dbl.fin 1 := by
    show sumFrom _ 0 3 = _
    simp [sumFrom, cellDraw, Dbl.add]
  have hd : Dbl.div (Dbl.fin 1) (Dbl.ofInt 3) = Dbl.roundNearest (1 / 3) := by
    rw [Dbl.div_fin 1 3 (by norm_num) (by decide) (by decide)]
    norm_num
  rw [h, hden, hs, hd, Dbl.roundNearest_one_third]

/-! ## The properties of the specification -/

/-- C1, as stated, fails: with `m = 2`, `iterations = 3`, `burnin = 0` and the variates
`1, 0, 0, …`, cell `(0, 1)` samples `1, 0, 0`, whose mean is `1 / 3`; the returned cell is
the `double` nearest to `1 / 3`, which is not `1 / 3`. -/
theorem C1_exact_mean_counterexample :
    (advancedBayesianCausalInference ⟨1, 2, []⟩
        ⟨fun k => Dbl.fin (if k = 0 then 1 else 0), 0⟩ 3 0).causal_matrix.get 0 1 =
      Dbl.fin (6004799503160661 / 18014398509481984) ∧
    (advancedBayesianCausalInference ⟨1, 2, []⟩
        ⟨fun k => Dbl.fin (if k = 0 then 1 else 0), 0⟩ 3 0).causal_matrix.get 0 1 ≠
      Dbl.fin ((∑ t in Finset.Ico (0 : Int).toNat (3 : Int).toNat,
          (fun k : Nat => if k = 0 then (1 : ℚ) else 0)
            (t * 2 * (2 - 1) + 0 * (2 - 1) + (if 1 < 0 then 1 else 1 - 1)))
        / (((3 : Int) - (0 : Int) : Int) : ℚ)) := by
  have hv := impulse_three_iterations
  refine ⟨hv, ?_⟩
  rw [hv]
  intro h
  injection h with h
  simp [Finset.sum_Ico_eq_sum_range, Finset.sum_range_succ] at h
  norm_num at h

/-- C1, amended: for `0 ≤ burnin < iterations` (an `int`) and finite variates `q` drawn
from position `0`, every off-diagonal cell `(i, j)` of the returned matrix is the mean in
`double` arithmetic of the variates sampled for it in iterations
`burnin, …, iterations - 1`: their sum, added in iteration order to `+0.0`, divided by
`iterations - burnin`; the variates of the burn-in iterations do not occur in it. When
none of these additions nor the division rounds, it is the exact arithmetic mean. -/
theorem C1_offdiagonal_double_mean (data : NumericMatrix) (q : Nat → ℚ)
    (iterations burnin : Int)
    (hb : 0 ≤ burnin) (hlt : burnin < iterations) (hmax : iterations ≤ 2147483647)
    (i j : Nat) (hi : i < data.ncol) (hj : j < data.ncol) (hij : i ≠ j) :
    (advancedBayesianCausalInference data ⟨fun k => Dbl.fin (q k), 0⟩
        iterations burnin).causal_matrix.get i j =
      Dbl.div (sumFrom (fun t => Dbl.fin (cellDraw q data.ncol i j t)) burnin.toNat
          (iterations.toNat - burnin.toNat))
        (Dbl.ofInt (iterations - burnin)) ∧
    (ExactMean (cellDraw q data.ncol i j) burnin.toNat iterations.toNat →
      (advancedBayesianCausalInference data ⟨fun k => Dbl.fin (q k), 0⟩
          iterations burnin).causal_matrix.get i j =
        Dbl.fin ((∑ t in Finset.Ico burnin.toNat iterations.toNat,
            cellDraw q data.ncol i j t)
          / ((iterations - burnin : Int) : ℚ))) := by
  have hden : denominator iterations burnin = iterations - burnin :=
    wrapInt32_of_isInt32 _ (by unfold isInt32; omega)
  refine ⟨?_, fun hex => ?_⟩
  · rw [(cell_offdiag_sum data q iterations burnin i j hi hj hij).2, hden]
  · lift iterations to ℕ using (by omega)
    lift burnin to ℕ using hb
    have hbn : burnin < iterations := by exact_mod_cast hlt
    simp only [Int.toNat_natCast] at hex ⊢
    rw [cell_offdiag_exact data q iterations burnin hbn hmax i j hi hj hij hex]
    push_cast
    rfl

/-- C1 amended, at `m = 2`, `iterations = 3`, `burnin = 1`, variates `q k = k + 1`, cell
`(0, 1)`: the mean of the third and fifth draws, `3` and `5`, computed without rounding. -/
theorem C1_offdiagonal_double_mean_witness :
    (advancedBayesianCausalInference ⟨3, 2, []⟩ ⟨fun k => Dbl.fin ((k : ℚ) + 1), 0⟩
        3 1).causal_matrix.get 0 1 = Dbl.fin 4 :=
  ((C1_offdiagonal_double_mean ⟨3, 2, []⟩ (fun k => (k : ℚ) + 1) 3 1 (by decide) (by decide)
    (by decide) 0 1 (by decide) (by decide) (by decide)).2 (by
      refine ⟨fun r hr => ?_, ?_⟩
      · have hr2 : r < 2 := hr
        interval_cases r
        · simp [cellDraw, Dbl.add]
        · simp [cellDraw, Dbl.add, Finset.sum_Ico_eq_sum_range]
          norm_num
          exact Dbl.roundNearest_eight
      · show Dbl.div (Dbl.fin (∑ t in Finset.Ico 1 3, cellDraw _ 2 0 1 t)) (Dbl.ofInt 2) = _
        simp [cellDraw, Finset.sum_Ico_eq_sum_range, Finset.sum_range_succ, Dbl.div,
          Dbl.ofInt, Dbl.isNaN, Dbl.isInf, Dbl.isZero]
        norm_num
        exact Dbl.roundNearest_four)).trans (by
      simp [cellDraw, Finset.sum_Ico_eq_sum_range, Finset.sum_range_succ]
      norm_num)

/-- C2: for `0 ≤ burnin < iterations` (an `int`), whatever the generator yields, every
diagonal cell of the returned matrix is `+0.0`, hence compares equal to `0.0`. -/
theorem C2_diagonal_zero (data : NumericMatrix) (g : Generator) (iterations burnin : Int)
    (hb : 0 ≤ burnin) (hlt : burnin < iterations) (hmax : iterations ≤ 2147483647)
    (i : Nat) (hi : i < data.ncol) :
    (advancedBayesianCausalInference data g iterations burnin).causal_matrix.get i i
        = Dbl.fin 0 ∧
    Dbl.eq ((advancedBayesianCausalInference data g iterations burnin).causal_matrix.get i i)
        (Dbl.fin 0) = true := by
  obtain ⟨_, _, _, hG⟩ := advancedBayesianCausalInference_spec data g iterations burnin
  have hden : denominator iterations burnin = iterations - burnin :=
    wrapInt32_of_isInt32 _ (by unfold isInt32; omega)
  have h : (advancedBayesianCausalInference data g iterations burnin).causal_matrix.get i i
      = Dbl.fin 0 := by
    rw [hG i i hi hi, cellAcc_diag, hden, Dbl.div_zero_pos _ (by omega)]
  exact ⟨h, by rw [h]; exact Dbl.eq_zeroOf false⟩

/-- C2 at `m = 3`, `iterations = 1000`, `burnin = 200`, cell `(1, 1)`. -/
theorem C2_diagonal_zero_witness :
    (advancedBayesianCausalInference ⟨3, 3, []⟩ ⟨fun _ => Dbl.nan, 0⟩
        1000 200).causal_matrix.get 1 1 = Dbl.fin 0 :=
  (C2_diagonal_zero ⟨3, 3, []⟩ ⟨fun _ => Dbl.nan, 0⟩ 1000 200 (by decide) (by decide)
    (by decide) 1 (by decide)).1

/-- C3: for every data matrix, of `m` columns and any number of rows, and every
`iterations` and `burnin`, the returned matrix has `m` rows, `m` columns and `m * m`
cells. -/
theorem C3_output_dimensions (data : NumericMatrix) (g : Generator)
    (iterations burnin : Int) :
    (advancedBayesianCausalInference data g iterations burnin).causal_matrix.nrow
        = data.ncol ∧
    (advancedBayesianCausalInference data g iterations burnin).causal_matrix.ncol
        = data.ncol ∧
    (advancedBayesianCausalInference data g iterations burnin).causal_matrix.data.length
        = data.ncol * data.ncol := by
  obtain ⟨_, _, hS, _⟩ := advancedBayesianCausalInference_spec data g iterations burnin
  exact ⟨hS.nrow_eq, hS.ncol_eq, hS.length_eq⟩

/-- C4: with `iterations = 1` and `burnin = 0`, and finite variates `q` drawn from
position `0`, the off-diagonal cell `(i, j)` of the returned matrix is the variate of rank
`i * (m - 1) + (if j < i then j else j - 1)`: the draws fill the off-diagonal cells in
row-major order; every diagonal cell is `0.0`. -/
theorem C4_row_major_draw_order (data : NumericMatrix) (q : Nat → ℚ)
    (i j : Nat) (hi : i < data.ncol) (hj : j < data.ncol) :
    (advancedBayesianCausalInference data ⟨fun k => Dbl.fin (q k), 0⟩
        1 0).causal_matrix.get i j =
      if i = j then Dbl.fin 0
      else Dbl.fin (q (i * (data.ncol - 1) + (if j < i then j else j - 1))) := by
  obtain ⟨_, _, _, hG⟩ :=
    advancedBayesianCausalInference_spec data ⟨fun k => Dbl.fin (q k), 0⟩ 1 0
  have hden : denominator 1 0 = 1 := by decide
  rw [hG i j hi hj, hden]
  by_cases hij : i = j
  · subst hij
    rw [cellAcc_diag, Dbl.div_zero_pos _ (by decide), if_pos rfl]
  · have hacc : cellAcc ⟨fun k => Dbl.fin (q k), 0⟩ data.ncol 0 i j (1 : Int).toNat =
        Dbl.fin (q (i * (data.ncol - 1) + (if j < i then j else j - 1))) := by
      show cellAcc ⟨fun k => Dbl.fin (q k), 0⟩ data.ncol 0 i j 1 = _
      unfold cellAcc
      rw [forLoop_succ, forLoop_zero, if_pos (by decide)]
      simp [cellSample, hij, colOffset, Dbl.add_zero_left]
    rw [hacc, Dbl.div_one, if_neg hij]

/-- C4 at `m = 3`, variates `q k = k + 1`, cell `(2, 1)`: the sixth draw. -/
theorem C4_row_major_draw_order_witness :
    (advancedBayesianCausalInference ⟨0, 3, []⟩ ⟨fun k => Dbl.fin ((k : ℚ) + 1), 0⟩
        1 0).causal_matrix.get 2 1 = Dbl.fin 6 :=
  (C4_row_major_draw_order ⟨0, 3, []⟩ (fun k => (k : ℚ) + 1) 2 1 (by decide)
    (by decide)).trans (by norm_num)

/-- The running totals of two generators that yield the same variates from their
positions on are the same. -/
theorem cellAcc_congr (g1 g2 : Generator)
    (hg : ∀ k, g1.draws (g1.pos + k) = g2.draws (g2.pos + k))
    (m : Nat) (burnin : Int) (a b n : Nat) :
    cellAcc g1 m burnin a b n = cellAcc g2 m burnin a b n := by
  induction n with
  | zero => rfl
  | succ k ih =>
    unfold cellAcc at ih ⊢
    rw [forLoop_succ, forLoop_succ, ih]
    have hs : cellSample g1 m k a b = cellSample g2 m k a b := by
      unfold cellSample
      split_ifs
      · have e := hg (k * (m * (m - 1)) + a * (m - 1) + colOffset a b)
        simpa [Nat.add_assoc] using e
      · rfl
    rw [hs]

/-- The returned matrix depends on the data through its column count only, and on the
generator through the variates it yields from its position on only. -/
theorem causal_matrix_congr (data1 data2 : NumericMatrix) (hm : data1.ncol = data2.ncol)
    (g1 g2 : Generator) (hg : ∀ k, g1.draws (g1.pos + k) = g2.draws (g2.pos + k))
    (iterations burnin : Int) :
    (advancedBayesianCausalInference data1 g1 iterations burnin).causal_matrix =
      (advancedBayesianCausalInference data2 g2 iterations burnin).causal_matrix := by
  obtain ⟨_, _, hS1, hG1⟩ := advancedBayesianCausalInference_spec data1 g1 iterations burnin
  obtain ⟨_, _, hS2, hG2⟩ := advancedBayesianCausalInference_spec data2 g2 iterations burnin
  rw [← hm] at hS2 hG2
  apply NumericMatrix.ext_get hS1 hS2
  intro i j hi hj
  rw [hG1 i j hi hj, hG2 i j hi hj, cellAcc_congr g1 g2 hg]

/-- C5: two runs with the same column count, `iterations` and `burnin`, whose generators
are in the same state (they yield the same variates from their positions on), return
identical matrices. -/
theorem C5_determinism (data1 data2 : NumericMatrix) (g1 g2 : Generator)
    (iterations burnin : Int) (hm : data1.ncol = data2.ncol)
    (hg : ∀ k, g1.draws (g1.pos + k) = g2.draws (g2.pos + k)) :
    (advancedBayesianCausalInference data1 g1 iterations burnin).causal_matrix =
      (advancedBayesianCausalInference data2 g2 iterations burnin).causal_matrix :=
  causal_matrix_congr data1 data2 hm g1 g2 hg iterations burnin

/-- C5 at `m = 2`, `iterations = 3`, `burnin = 1`: a generator at position `0` and one
that has already made two draws of the same stream shifted by two. -/
theorem C5_determinism_witness :
    (advancedBayesianCausalInference ⟨1, 2, []⟩ ⟨fun k => Dbl.fin (k : ℚ), 0⟩
        3 1).causal_matrix =
      (advancedBayesianCausalInference ⟨4, 2, []⟩ ⟨fun k => Dbl.fin ((k - 2 : Nat) : ℚ), 2⟩
        3 1).causal_matrix :=
  C5_determinism ⟨1, 2, []⟩ ⟨4, 2, []⟩ ⟨fun k => Dbl.fin (k : ℚ), 0⟩
    ⟨fun k => Dbl.fin ((k - 2 : Nat) : ℚ), 2⟩ 3 1 rfl (fun k => by simp)

/-- C6: two data matrices with the same number of columns, whatever their row counts and
entries, give the same returned matrix under the same `iterations`, `burnin` and
generator; and the data matrix of the final store is the one passed in. -/
theorem C6_data_not_read (data1 data2 : NumericMatrix) (g : Generator)
    (iterations burnin : Int) (hm : data1.ncol = data2.ncol) :
    (advancedBayesianCausalInference data1 g iterations burnin).causal_matrix =
      (advancedBayesianCausalInference data2 g iterations burnin).causal_matrix ∧
    (advancedBayesianCausalInference data1 g iterations burnin).data = data1 :=
  ⟨causal_matrix_congr data1 data2 hm g g (fun _ => rfl) iterations burnin,
    (advancedBayesianCausalInference_spec data1 g iterations burnin).1⟩

/-- C6 at two matrices of two columns, one `3 × 2` and one `1 × 2`. -/
theorem C6_data_not_read_witness :
    (advancedBayesianCausalInference
        ⟨3, 2, [Dbl.fin 1, Dbl.fin 0, Dbl.fin 1, Dbl.fin 1, Dbl.fin 0, Dbl.fin 1]⟩
        ⟨fun k => Dbl.fin (k : ℚ), 0⟩ 1000 200).causal_matrix =
      (advancedBayesianCausalInference ⟨1, 2, [Dbl.nan, Dbl.pinf]⟩
        ⟨fun k => Dbl.fin (k : ℚ), 0⟩ 1000 200).causal_matrix ∧
    (advancedBayesianCausalInference
        ⟨3, 2, [Dbl.fin 1, Dbl.fin 0, Dbl.fin 1, Dbl.fin 1, Dbl.fin 0, Dbl.fin 1]⟩
        ⟨fun k => Dbl.fin (k : ℚ), 0⟩ 1000 200).data =
      ⟨3, 2, [Dbl.fin 1, Dbl.fin 0, Dbl.fin 1, Dbl.fin 1, Dbl.fin 0, Dbl.fin 1]⟩ :=
  C6_data_not_read _ _ _ 1000 200 rfl

/-- C7: when `iterations` equals `burnin`, whatever the generator yields, no sample is
accumulated (every cell is `0.0` before normalisation), the denominator is `0`, and every
cell of the returned matrix, diagonal or not, is NaN. -/
theorem C7_equal_iterations_burnin_nan (data : NumericMatrix) (g : Generator) (n : Int)
    (i j : Nat) (hi : i < data.ncol) (hj : j < data.ncol) :
    (mcmcSampling data g n n).causal_matrix.get i j = Dbl.fin 0 ∧
    denominator n n = 0 ∧
    (advancedBayesianCausalInference data g n n).causal_matrix.get i j = Dbl.nan := by
  obtain ⟨_, _, _, _, hP⟩ := mcmcSampling_spec data g n n
  obtain ⟨_, _, _, hG⟩ := advancedBayesianCausalInference_spec data g n n
  have hacc : cellAcc g data.ncol n i j n.toNat = Dbl.fin 0 :=
    cellAcc_never g data.ncol n n i j (le_refl n)
  have hden : denominator n n = 0 := by simp [denominator, wrapInt32]
  refine ⟨by rw [hP i j hi hj, hacc], hden, ?_⟩
  rw [hG i j hi hj, hacc, hden, Dbl.div_zero_zero]

/-- C7 at `m = 2`, `iterations = burnin = 5`, cell `(0, 1)`. -/
theorem C7_equal_iterations_burnin_nan_witness :
    (advancedBayesianCausalInference ⟨3, 2, []⟩ ⟨fun k => Dbl.fin (k : ℚ), 0⟩
        5 5).causal_matrix.get 0 1 = Dbl.nan :=
  (C7_equal_iterations_burnin_nan ⟨3, 2, []⟩ ⟨fun k => Dbl.fin (k : ℚ), 0⟩ 5 0 1
    (by decide) (by decide)).2.2

theorem denominator_ne_zero (iterations burnin : Int) (hi : isInt32 iterations)
    (hb : isInt32 burnin) (hne : iterations ≠ burnin) : denominator iterations burnin ≠ 0 := by
  unfold isInt32 at hi hb
  unfold denominator wrapInt32
  omega

/-- C8: when `burnin > iterations` (both `int`), whatever the generator yields, no
iteration accumulates: every cell is `0.0` before normalisation, the denominator is not
zero, and every cell of the returned matrix is a zero (`-0.0` when the denominator is
negative), which compares equal to `0.0`. -/
theorem C8_burnin_above_iterations_zero (data : NumericMatrix) (g : Generator)
    (iterations burnin : Int) (hi32 : isInt32 iterations) (hb32 : isInt32 burnin)
    (hgt : burnin > iterations) (i j : Nat) (hi : i < data.ncol) (hj : j < data.ncol) :
    (mcmcSampling data g iterations burnin).causal_matrix.get i j = Dbl.fin 0 ∧
    denominator iterations burnin ≠ 0 ∧
    (advancedBayesianCausalInference data g iterations burnin).causal_matrix.get i j =
      Dbl.zeroOf (decide (denominator iterations burnin < 0)) ∧
    Dbl.eq ((advancedBayesianCausalInference data g iterations burnin).causal_matrix.get i j)
      (Dbl.fin 0) = true := by
  obtain ⟨_, _, _, _, hP⟩ := mcmcSampling_spec data g iterations burnin
  obtain ⟨_, _, _, hG⟩ := advancedBayesianCausalInference_spec data g iterations burnin
  have hacc : cellAcc g data.ncol burnin i j iterations.toNat = Dbl.fin 0 :=
    cellAcc_never g data.ncol iterations burnin i j (le_of_lt hgt)
  have hden : denominator iterations burnin ≠ 0 :=
    denominator_ne_zero iterations burnin hi32 hb32 (ne_of_lt hgt)
  have hout : (advancedBayesianCausalInference data g iterations burnin).causal_matrix.get i j
      = Dbl.zeroOf (decide (denominator iterations burnin < 0)) := by
    rw [hG i j hi hj, hacc, Dbl.div_zero_nonzero _ hden]
  exact ⟨by rw [hP i j hi hj, hacc], hden, hout, by rw [hout]; exact Dbl.eq_zeroOf _⟩

/-- C8 at `m = 2`, `iterations = 5`, `burnin = 10`, cell `(0, 1)`. -/
theorem C8_burnin_above_iterations_zero_witness :
    Dbl.eq ((advancedBayesianCausalInference ⟨3, 2, []⟩ ⟨fun k => Dbl.fin (k : ℚ), 0⟩
        5 10).causal_matrix.get 0 1) (Dbl.fin 0) = true :=
  (C8_burnin_above_iterations_zero ⟨3, 2, []⟩ ⟨fun k => Dbl.fin (k : ℚ), 0⟩ 5 10
    (by decide) (by decide) (by decide) 0 1 (by decide) (by decide)).2.2.2

theorem Dbl.roundNearest_two_pow_neg_31 :
    Dbl.roundNearest (1 / 2147483648) = Dbl.fin (1 / 2147483648) :=
  Dbl.roundNearest_exact (1 / 2147483648) (-31) 4503599627370496 (by norm_num) (by norm_num)
    (by norm_num) (by norm_num) (by norm_num) (by norm_num)

/-- C9, as stated, fails: with `m = 2`, `iterations = 1`, `burnin = -2147483647` (both
`int` values) and the variates `-1, -1, …`, cell `(0, 1)` holds the sum `-1` before
normalisation; the `int` subtraction `iterations - burnin` wraps to `-2147483648`, so the
returned cell is `1 / 2147483648`, not the sum divided by `iterations - burnin`, which is
`-1 / 2147483648`. -/
theorem C9_denominator_counterexample :
    isInt32 1 ∧ isInt32 (-2147483647) ∧ (-2147483647 : Int) < 0 ∧
    (mcmcSampling ⟨1, 2, []⟩ ⟨fun _ => Dbl.fin (-1), 0⟩
        1 (-2147483647)).causal_matrix.get 0 1 = Dbl.fin (-1) ∧
    (advancedBayesianCausalInference ⟨1, 2, []⟩ ⟨fun _ => Dbl.fin (-1), 0⟩
        1 (-2147483647)).causal_matrix.get 0 1 = Dbl.fin (1 / 2147483648) ∧
    (advancedBayesianCausalInference ⟨1, 2, []⟩ ⟨fun _ => Dbl.fin (-1), 0⟩
        1 (-2147483647)).causal_matrix.get 0 1 ≠
      Dbl.fin ((∑ _t in Finset.range (1 : Int).toNat, (-1 : ℚ))
        / (((1 : Int) - (-2147483647 : Int) : Int) : ℚ)) := by
  obtain ⟨hp, ho⟩ := cell_offdiag_sum ⟨1, 2, []⟩ (fun _ => -1) 1 (-2147483647) 0 1
    (by decide) (by decide) (by decide)
  have hden : denominator 1 (-2147483647) = -2147483648 := by decide
  have hs : sumFrom (fun t => Dbl.fin (cellDraw (fun _ => -1) 2 0 1 t))
      (-2147483647 : Int).toNat ((1 : Int).toNat - (-2147483647 : Int).toNat) =
      Dbl.fin (-1) := by
    show sumFrom _ 0 1 = _
    simp [sumFrom, cellDraw, Dbl.add]
  have hd : Dbl.div (Dbl.fin (-1)) (Dbl.ofInt (-2147483648)) =
      Dbl.roundNearest (1 / 2147483648) := by
    simp [Dbl.div, Dbl.ofInt, Dbl.isNaN, Dbl.isInf, Dbl.isZero]
    norm_num
  have hv : (advancedBayesianCausalInference ⟨1, 2, []⟩ ⟨fun _ => Dbl.fin (-1), 0⟩
      1 (-2147483647)).causal_matrix.get 0 1 = Dbl.fin (1 / 2147483648) := by
    rw [ho, hden, hs, hd, Dbl.roundNearest_two_pow_neg_31]
  refine ⟨by decide, by decide, by decide, by rw [hp, hs], hv, ?_⟩
  rw [hv]
  intro h
  injection h with h
  norm_num at h

/-- C9, amended: when `burnin < 0`, with finite variates `q` drawn from position `0`, every
iteration accumulates: before normalisation an off-diagonal cell `(i, j)` holds the sum in
`double` arithmetic of the variates sampled for it in all iterations `t` of
`[0, iterations)`, added in iteration order to `+0.0` (the exact sum when no addition
rounds), and the returned cell is that value divided in `double` arithmetic by the
denominator the program computes, the `int` subtraction `iterations - burnin`, which is
`iterations - burnin` when `iterations ≥ 0` and `iterations - burnin ≤ 2147483647`. -/
theorem C9_negative_burnin_accumulates_all (data : NumericMatrix) (q : Nat → ℚ)
    (iterations burnin : Int) (hneg : burnin < 0)
    (i j : Nat) (hi : i < data.ncol) (hj : j < data.ncol) (hij : i ≠ j) :
    (mcmcSampling data ⟨fun k => Dbl.fin (q k), 0⟩ iterations burnin).causal_matrix.get i j =
      sumFrom (fun t => Dbl.fin (cellDraw q data.ncol i j t)) 0 iterations.toNat ∧
    (ExactSum (cellDraw q data.ncol i j) 0 iterations.toNat →
      (mcmcSampling data ⟨fun k => Dbl.fin (q k), 0⟩
          iterations burnin).causal_matrix.get i j =
        Dbl.fin (∑ t in Finset.range iterations.toNat, cellDraw q data.ncol i j t)) ∧
    (advancedBayesianCausalInference data ⟨fun k => Dbl.fin (q k), 0⟩
        iterations burnin).causal_matrix.get i j =
      Dbl.div (sumFrom (fun t => Dbl.fin (cellDraw q data.ncol i j t)) 0 iterations.toNat)
        (Dbl.ofInt (denominator iterations burnin)) ∧
    (0 ≤ iterations → iterations - burnin ≤ 2147483647 →
      denominator iterations burnin = iterations - burnin) := by
  obtain ⟨hp, ho⟩ := cell_offdiag_sum data q iterations burnin i j hi hj hij
  have hb0 : burnin.toNat = 0 := Int.toNat_of_nonpos (le_of_lt hneg)
  rw [hb0, Nat.sub_zero] at hp ho
  refine ⟨hp, fun hex => ?_, ho, fun h0 hov => ?_⟩
  · rw [hp, sumFrom_exact _ 0 _ hex, Nat.zero_add, Finset.range_eq_Ico]
  · exact wrapInt32_of_isInt32 _ (by unfold isInt32; omega)

/-- C9 amended, at `m = 2`, `iterations = 2`, `burnin = -1`, variates `q k = k + 1`, cell
`(0, 1)`: the first and third draws, `1` and `3`, are summed without rounding. -/
theorem C9_negative_burnin_accumulates_all_witness :
    (mcmcSampling ⟨3, 2, []⟩ ⟨fun k => Dbl.fin ((k : ℚ) + 1), 0⟩
        2 (-1)).causal_matrix.get 0 1 = Dbl.fin 4 :=
  ((C9_negative_burnin_accumulates_all ⟨3, 2, []⟩ (fun k => (k : ℚ) + 1) 2 (-1)
    (by decide) 0 1 (by decide) (by decide) (by decide)).2.1 (by
      intro r hr
      have hr2 : r < 2 := hr
      interval_cases r
      · simp [cellDraw, Dbl.add]
      · simp [cellDraw, Dbl.add]
        norm_num
        exact Dbl.roundNearest_four)).trans (by
      simp [cellDraw, Finset.sum_range_succ]
      norm_num)

/-- C10, as stated, fails: with `iterations = 2147483647` and `burnin = -1`, both `int`
values, the denominator wraps to `-2147483648`, which is not larger than `iterations`. -/
theorem C10_denominator_counterexample :
    isInt32 2147483647 ∧ isInt32 (-1) ∧ (-1 : Int) < 0 ∧ (0 : Int) ≤ 2147483647 ∧
    denominator 2147483647 (-1) = -2147483648 ∧
    ¬ (2147483647 < denominator 2147483647 (-1)) := by
  decide

/-- C10, amended: for `int` values `burnin < 0` and `iterations ≥ 0` whose difference
`iterations - burnin` is at most `2147483647` (the subtraction does not overflow), the
denominator the program computes is `iterations - burnin` and is larger than
`iterations`. -/
theorem C10_denominator_larger_without_overflow (iterations burnin : Int)
    (hneg : burnin < 0) (h0 : 0 ≤ iterations)
    (hov : iterations - burnin ≤ 2147483647) :
    denominator iterations burnin = iterations - burnin ∧
    iterations < denominator iterations burnin := by
  have hden : denominator iterations burnin = iterations - burnin :=
    wrapInt32_of_isInt32 _ (by unfold isInt32; omega)
  rw [hden]
  exact ⟨rfl, by omega⟩

/-- C10 amended, at `iterations = 1000` and `burnin = -200`: the denominator is `1200`. -/
theorem C10_denominator_larger_without_overflow_witness :
    denominator 1000 (-200) = 1000 - (-200) ∧ 1000 < denominator 1000 (-200) :=
  C10_denominator_larger_without_overflow 1000 (-200) (by decide) (by decide) (by decide)

/-- C11: no input is rejected. For every data matrix, every generator and every pair of
integers `iterations` and `burnin` (equal, `burnin` above `iterations`, negative, or
`iterations ≤ 0` included) the function returns a matrix, which has `m` rows and `m`
columns and stores every cell `(i, j)` with `i, j < m` in its vector; the function is total
and its result type has no error value. -/
theorem C11_no_input_rejected (data : NumericMatrix) (g : Generator)
    (iterations burnin : Int) :
    ∃ M : NumericMatrix,
      (advancedBayesianCausalInference data g iterations burnin).causal_matrix = M ∧
      M.nrow = data.ncol ∧ M.ncol = data.ncol ∧
      ∀ i j, i < data.ncol → j < data.ncol → i + M.nrow * j < M.data.length := by
  obtain ⟨_, _, hS, _⟩ := advancedBayesianCausalInference_spec data g iterations burnin
  refine ⟨_, rfl, hS.nrow_eq, hS.ncol_eq, fun i j hi hj => ?_⟩
  rw [hS.nrow_eq, hS.length_eq]
  exact offset_lt hi hj

/-- C12: when the data matrix has no column, for every `iterations` and `burnin` the
returned matrix is the `0 × 0` matrix with no cell, the generator is left as it was (no
variate is drawn), and the initialisation, sampling, accumulation and normalisation loops
leave every state as it is (their bodies, the division among them, never run). -/
theorem C12_no_columns (data : NumericMatrix) (g : Generator) (iterations burnin : Int)
    (hm : data.ncol = 0) :
    (advancedBayesianCausalInference data g iterations burnin).causal_matrix = ⟨0, 0, []⟩ ∧
    (advancedBayesianCausalInference data g iterations burnin).generator.pos = g.pos ∧
    (advancedBayesianCausalInference data g iterations burnin).generator.draws = g.draws ∧
    (∀ cm, initCausalMatrix data.ncol cm = cm) ∧
    (∀ s, sampleEstimates data.ncol s = s) ∧
    (∀ cur cm, updateCausalMatrix data.ncol cur cm = cm) ∧
    (∀ cm, normalize data.ncol iterations burnin cm = cm) := by
  obtain ⟨_, hP, hS, _⟩ := advancedBayesianCausalInference_spec data g iterations burnin
  obtain ⟨_, hD, _, _, _⟩ := mcmcSampling_spec data g iterations burnin
  refine ⟨?_, ?_, hD, ?_, ?_, ?_, ?_⟩
  · generalize (advancedBayesianCausalInference data g iterations burnin).causal_matrix = M
      at hS
    obtain ⟨r, c, d⟩ := M
    have h1 : r = data.ncol := hS.nrow_eq
    have h2 : c = data.ncol := hS.ncol_eq
    have h3 : d.length = data.ncol * data.ncol := hS.length_eq
    rw [hm] at h1 h2 h3
    have h4 : d = [] := List.eq_nil_of_length_eq_zero (by simpa using h3)
    rw [h1, h2, h4]
  · rw [hP, hm]; simp
  · intro cm; rw [hm]; rfl
  · intro s; rw [hm]; rfl
  · intro cur cm; rw [hm]; rfl
  · intro cm; rw [hm]; rfl

/-- C12 at a `4 × 0` data matrix, `iterations = 1000`, `burnin = 200`. -/
theorem C12_no_columns_witness :
    (advancedBayesianCausalInference ⟨4, 0, []⟩ ⟨fun k => Dbl.fin (k : ℚ), 7⟩
        1000 200).causal_matrix = ⟨0, 0, []⟩ :=
  (C12_no_columns ⟨4, 0, []⟩ ⟨fun k => Dbl.fin (k : ℚ), 7⟩ 1000 200 rfl).1

/-- C13: one call advances the generator by `iterations * m * (m - 1)` draws when
`iterations ≥ 0` (in integer arithmetic, also at `m = 0`) and by none when
`iterations ≤ 0`; the number of draws is the same for every `burnin`, so the burn-in
iterations draw as the others do. -/
theorem C13_draw_count (data : NumericMatrix) (g : Generator) (iterations burnin : Int) :
    (advancedBayesianCausalInference data g iterations burnin).generator.pos =
      g.pos + iterations.toNat * data.ncol * (data.ncol - 1) ∧
    (0 ≤ iterations →
      ((advancedBayesianCausalInference data g iterations burnin).generator.pos : Int)
          - (g.pos : Int) =
        iterations * (data.ncol : Int) * ((data.ncol : Int) - 1)) ∧
    (iterations ≤ 0 →
      (advancedBayesianCausalInference data g iterations burnin).generator.pos = g.pos) ∧
    ∀ burnin2 : Int,
      (advancedBayesianCausalInference data g iterations burnin2).generator.pos =
        (advancedBayesianCausalInference data g iterations burnin).generator.pos := by
  obtain ⟨_, hP, _, _⟩ := advancedBayesianCausalInference_spec data g iterations burnin
  refine ⟨by rw [hP, Nat.mul_assoc], fun h0 => ?_, fun h0 => ?_, fun burnin2 => ?_⟩
  · rw [hP]
    have hn : ((iterations.toNat : Nat) : Int) = iterations := Int.toNat_of_nonneg h0
    rcases Nat.eq_zero_or_pos data.ncol with hz | hpos
    · rw [hz]; simp
    · have hc : ((data.ncol - 1 : Nat) : Int) = (data.ncol : Int) - 1 := by omega
      push_cast
      rw [hn, hc]
      ring
  · rw [hP, Int.toNat_of_nonpos h0]; simp
  · obtain ⟨_, hP2, _, _⟩ := advancedBayesianCausalInference_spec data g iterations burnin2
    rw [hP, hP2]

/-- C13 at `m = 3`, `iterations = 4`, `burnin = 2`, from position `5`: `24` draws. -/
theorem C13_draw_count_witness :
    (advancedBayesianCausalInference ⟨2, 3, []⟩ ⟨fun k => Dbl.fin (k : ℚ), 5⟩
        4 2).generator.pos = 29 :=
  (C13_draw_count ⟨2, 3, []⟩ ⟨fun k => Dbl.fin (k : ℚ), 5⟩ 4 2).1.trans (by decide)

end BayesianCI
